import Mathlib

/-!
Verification of the PDF2md conversion pipeline.

This file gives a shallow embedding in Lean 4 of the conversion core of the
PDF2md repository:

* `backend/service/ocr_service.py` — OCR dispatch and image preprocessing
  (`OCRService.perform_ocr`, `_local_ocr`, `_preprocess_image`);
* `backend/service/pdf_converter_v2.py` — the page-level layout algorithm
  (`_extract_text_with_table_placeholders`, `_detect_table_positions`,
  `_extract_tables_with_positions`, `_replace_placeholders_with_tables`,
  `_format_text_block`, table rendering helpers) and the batched driver
  (`_process_page_batch`, `_process_pages_in_batches`, `convert_pdf`);
* `backend/service/convert_service.py` — the background worker
  (`ConvertService._run_convert_task`).

Python floats are modelled as rationals, Python lists as Lean lists, file
and OCR-engine I/O as explicit `Except`-valued inputs, and the mutable
`processing_stats` dictionary as an explicit state record threaded through
the functions.  Wall-clock timestamps (`time.time()`) are modelled as
booleans recording only whether the field was set.  String operations are
re-implemented structurally over `List Char` so that every definition is
kernel-computable.
-/

unseal Rat.add Rat.sub Rat.mul Rat.inv

deriving instance DecidableEq for Except

namespace PDF2md

/-! ## String helpers

Kernel-computable models of the Python string operations used by the
source: `str.strip`, `str.replace`, `"sep".join`, `str.split()`, and the
`in` substring test.  These are written by structural recursion (with an
explicit fuel argument for `replace`) so `decide` can evaluate them. -/

def trimChars (s : List Char) : List Char :=
  ((s.dropWhile Char.isWhitespace).reverse.dropWhile Char.isWhitespace).reverse

/-- Python `str.strip()`. -/
def strTrim (s : String) : String := ⟨trimChars s.data⟩

/-- Python `"sep".join(parts)`. -/
def joinWith (sep : String) : List String → String
  | [] => ""
  | [x] => x
  | x :: y :: xs => x ++ sep ++ joinWith sep (y :: xs)

/-- One step of Python `str.replace`: left-to-right, non-overlapping; the
fuel argument bounds the recursion and is instantiated with the string
length, which suffices for a non-empty pattern. -/
def replaceAllAux (pat rep : List Char) : Nat → List Char → List Char
  | 0, s => s
  | _ + 1, [] => []
  | fuel + 1, c :: cs =>
    if pat.isPrefixOf (c :: cs) then
      rep ++ replaceAllAux pat rep fuel (List.drop pat.length (c :: cs))
    else
      c :: replaceAllAux pat rep fuel cs

/-- Python `s.replace(pat, rep)` (all occurrences, left to right). -/
def strReplace (s pat rep : String) : String :=
  ⟨replaceAllAux pat.data rep.data s.data.length s.data⟩

def containsSub (pat : List Char) : List Char → Bool
  | [] => pat.isEmpty
  | c :: cs => pat.isPrefixOf (c :: cs) || containsSub pat cs

/-- Python `pat in s` (substring test). -/
def strContains (s pat : String) : Bool := containsSub pat.data s.data

/-- Python `str.split()` (split on whitespace runs, dropping empties);
the first argument accumulates the current word, reversed. -/
def wordsAux : List Char → List Char → List (List Char)
  | acc, [] => if acc.isEmpty then [] else [acc.reverse]
  | acc, c :: cs =>
    if c.isWhitespace then
      if acc.isEmpty then wordsAux [] cs else acc.reverse :: wordsAux [] cs
    else wordsAux (c :: acc) cs

/-- Python `" ".join(s.split())`: collapse whitespace runs to one space. -/
def collapseWs (s : String) : String :=
  joinWith " " ((wordsAux [] s.data).map fun w => (⟨w⟩ : String))

/-! ## Stable sort

Python `sorted` / `list.sort` are stable.  We model them with insertion
sort, the canonical stable sort: an element is inserted after every
already-placed element that compares less-or-equal. -/

def insertBy {α : Type} (le : α → α → Bool) (x : α) : List α → List α
  | [] => [x]
  | y :: ys => if le y x then y :: insertBy le x ys else x :: y :: ys

def sortBy {α : Type} (le : α → α → Bool) (l : List α) : List α :=
  l.foldl (fun acc x => insertBy le x acc) []

/-! ## OCR service (`backend/service/ocr_service.py`)

`OCRService._preprocess_image` converts the image to RGB/BGR and then
applies up to two resizes.  Only the resize decisions are geometric; the
colour-space conversions do not change dimensions and are not modelled.
Note the source computes `height, width` once, before the downscale, and
tests the upscale conditions against those original values. -/

/-- A resize applied by `_preprocess_image`: the bounded downscale with its
scale factor, the ×3 upscale for small images, or the ×2 upscale. -/
inductive ScaleOp
  | down (scale : ℚ)
  | up3
  | up2
  deriving DecidableEq, Repr

/-- The sequence of resizes `_preprocess_image` applies to an image of the
given pixel dimensions, in order.  From the source: downscale when
`max(height, width) > 1200` by `1200 / max(height, width)`; then ×3 when
`height < 100 or width < 100`, else ×2 when `height < 200 or width < 200`,
both conditions read from the pre-downscale dimensions. -/
def preprocessOps (height width : ℕ) : List ScaleOp :=
  (if max height width > 1200 then
    [ScaleOp.down (1200 / (max height width : ℚ))]
  else []) ++
  (if height < 100 ∨ width < 100 then [ScaleOp.up3]
   else if height < 200 ∨ width < 200 then [ScaleOp.up2]
   else [])

/-- `OCRService._local_ocr`, text-extraction part: from the engine output
`result`, texts are taken from `result[0]["rec_texts"]` when the list is
non-empty and the key is present (`Option.none` models a missing key), and
empty strings are dropped (`if text and len(text) > 0`). -/
def ocrExtractTexts (result : List (Option (List String))) : List String :=
  match result with
  | [] => []
  | r0 :: _ => (r0.getD []).filter fun t => t ≠ ""

/-- `OCRService._local_ocr`.  The argument is the outcome of
`self.ocr.predict` (preceded by preprocessing): `Except.error` models an
engine-internal exception.  The source wraps the call in no `try`, so an
error passes through unchanged. -/
def localOcr (pr : Except String (List (Option (List String)))) :
    Except String String :=
  match pr with
  | Except.error e => Except.error e
  | Except.ok result =>
    Except.ok (strTrim (joinWith "\n" (ocrExtractTexts result)))

/-- `OCRService.perform_ocr`: dispatch on `config.ocr_service_type`.
`"cloud"` raises `NotImplementedError` and any other value raises
`ValueError`; there is no exception handling in this method. -/
def performOcr (serviceType : String)
    (pr : Except String (List (Option (List String)))) :
    Except String String :=
  if serviceType = "local" then localOcr pr
  else if serviceType = "cloud" then
    Except.error "NotImplementedError: 云OCR服务未实现"
  else Except.error ("ValueError: 未知OCR服务类型: " ++ serviceType)

/-! ## Geometry (`pdf_converter_v2.py`, bbox helpers)

Coordinates are PDF user-space points, modelled as rationals. -/

/-- An axis-aligned bounding box `(x0, y0, x1, y1)`. -/
structure Rect where
  x0 : ℚ
  y0 : ℚ
  x1 : ℚ
  y1 : ℚ
  deriving DecidableEq, Repr

/-- `PDFConverterV2._bbox_overlap`: true unless the boxes are strictly
disjoint on some axis. -/
def bboxOverlap (a b : Rect) : Bool :=
  !(a.x1 < b.x0 || a.x0 > b.x1 || a.y1 < b.y0 || a.y0 > b.y1)

/-- `PDFConverterV2._bbox_overlap_ratio`: area of the intersection divided
by the area of the first box; `0` when the intersection is degenerate or
the first box has zero area. -/
def overlapRatio (a b : Rect) : ℚ :=
  let ox0 := max a.x0 b.x0
  let oy0 := max a.y0 b.y0
  let ox1 := min a.x1 b.x1
  let oy1 := min a.y1 b.y1
  if ox1 ≤ ox0 ∨ oy1 ≤ oy0 then 0
  else
    let overlapArea := (ox1 - ox0) * (oy1 - oy0)
    let aArea := (a.x1 - a.x0) * (a.y1 - a.y0)
    if aArea = 0 then 0 else overlapArea / aArea

/-! ## Page data model

`page.get_text("dict")["blocks"]` yields text blocks (with `"lines"` of
`"spans"`) and image blocks (no `"lines"` key); `pdfplumber`
`page.find_tables()` yields tables with a bbox and a cell matrix whose
cells may be `None`. -/

/-- A PyMuPDF text span: `{"text": ..., "size": ...}`. -/
structure Span where
  text : String
  size : ℚ
  deriving DecidableEq, Repr

/-- A block from `get_text("dict")["blocks"]`: a text block with its lines
of spans, or an image block (no `"lines"` key). -/
inductive Block
  | text (bbox : Rect) (lines : List (List Span))
  | image (bbox : Rect)
  deriving DecidableEq, Repr

def Block.bbox : Block → Rect
  | Block.text b _ => b
  | Block.image b => b

def isTextBlock : Block → Bool
  | Block.text _ _ => true
  | Block.image _ => false

/-- One page as seen by the converter: page dimensions (for bbox
clamping), the PyMuPDF block list, and the pdfplumber table list in
detection order, each with its bbox and raw cell matrix. -/
structure Page where
  width : ℚ
  height : ℚ
  blocks : List Block
  tables : List (Rect × List (List (Option String)))
  deriving DecidableEq, Repr

/-- `ConversionConfig` (the dataclass defaults). -/
structure Config where
  tableDetectionEnabled : Bool := true
  tableMinColumns : ℕ := 2
  preserveFormatting : Bool := true
  extractImages : Bool := false
  chunkSize : ℕ := 50
  progressUpdateInterval : ℕ := 10
  deriving Repr

/-- The configuration `ConvertService.__init__` builds: the three flags
set to `True`, everything else left at the dataclass defaults. -/
def convertServiceConfig : Config :=
  { tableDetectionEnabled := true, extractImages := true,
    preserveFormatting := true }

/-! ## Table rendering (`_extract_table_safely`, `_is_valid_table`,
`_clean_table_data`, `_convert_table_to_markdown`, `_extract_single_table`) -/

/-- `_extract_table_safely` (cell cleaning part): `None` cells become `""`,
others are `str(cell).strip()`.  The surrounding `try` guards only the
`table.extract()` call, which is part of the abstract page input here. -/
def extractTableSafely (raw : List (List (Option String))) :
    List (List String) :=
  raw.map fun row => row.map fun c => strTrim (c.getD "")

/-- `_is_valid_table`: at least 2 rows, maximum row length at least
`table_min_columns`, and some cell with non-whitespace content. -/
def isValidTable (cfg : Config) (t : List (List String)) : Bool :=
  if t.length < 2 then false
  else if (t.map List.length).foldl max 0 < cfg.tableMinColumns then false
  else t.any fun row => row.any fun c => c ≠ "" && strTrim c ≠ ""

/-- `_clean_table_data` on one cell: strip, turn internal newlines into
`<br>`, collapse whitespace runs.  (The `None` branch of the source is
unreachable on the call path: `_convert_table_to_markdown` is only applied
to the output of `_extract_table_safely`, which is all strings.) -/
def cleanCell (s : String) : String :=
  let t := strTrim s
  let t := if t.data.contains '\n' then strReplace t "\n" "<br>" else t
  collapseWs t

/-- `_convert_table_to_markdown`: first row is the header; short rows are
right-padded with empty cells, long rows truncated to the header length. -/
def convertTableToMarkdown (t : List (List String)) : String :=
  if t.length < 2 then ""
  else
    match t.map fun row => row.map cleanCell with
    | [] => ""
    | headers :: rows =>
      let headerLine := "| " ++ joinWith " | " headers ++ " |"
      let sepLine :=
        "| " ++ joinWith " | " (headers.map fun _ => "---") ++ " |"
      let bodyLines := rows.map fun row =>
        if row.length = headers.length then
          "| " ++ joinWith " | " row ++ " |"
        else
          let adjusted :=
            row ++ List.replicate (headers.length - row.length) ""
          "| " ++ joinWith " | " (adjusted.take headers.length) ++ " |"
      joinWith "\n" (headerLine :: sepLine :: bodyLines)

/-- `_extract_single_table`: clean the raw cells, keep the table only if
it has more than one row and passes `_is_valid_table`, and render it;
otherwise the empty string. -/
def extractSingleTable (cfg : Config)
    (raw : List (List (Option String))) : String :=
  let extracted := extractTableSafely raw
  if !extracted.isEmpty && decide (extracted.length > 1)
      && isValidTable cfg extracted then
    convertTableToMarkdown extracted
  else ""

/-! ## Table position detection and extraction -/

/-- `_detect_table_positions`: each detected table bbox expanded by 2
points on every side (clamped to the page), paired with its detection
index, the whole list sorted by the expanded `y0`. -/
def detectTablePositions (page : Page) : List (Rect × ℕ) :=
  sortBy (fun a b => decide (a.1.y0 ≤ b.1.y0))
    (page.tables.enum.map fun p =>
      let bbox := p.2.1
      (⟨max 0 (bbox.x0 - 2), max 0 (bbox.y0 - 2),
        min page.width (bbox.x1 + 2), min page.height (bbox.y1 + 2)⟩,
       p.1))

/-- `_extract_tables_with_positions`: `tables_dict[i] = content` for each
detected table whose rendered content is non-empty, in detection order. -/
def extractTablesWithPositions (cfg : Config) (page : Page) :
    List (ℕ × String) :=
  page.tables.enum.foldl
    (fun acc p =>
      let content := extractSingleTable cfg p.2.2
      if content ≠ "" then acc ++ [(p.1, content)] else acc)
    []

/-! ## Text extraction with table placeholders
(`_format_text_block`, `_extract_text_with_table_placeholders`) -/

/-- `_format_text_block` on one line: strip each span, drop empty ones,
wrap spans with `size > 14` in `**`. -/
def formatLine (spans : List Span) : List String :=
  spans.foldl
    (fun acc sp =>
      let t := strTrim sp.text
      if t ≠ "" then
        acc ++ [if sp.size > 14 then "**" ++ t ++ "**" else t]
      else acc)
    []

/-- `_format_text_block`: spans of a line joined by a single space,
non-empty lines joined by newlines.  With `preserve_formatting` off the
source falls back to `block.get("text", "")`, and dict-blocks carry no
`"text"` key, so that branch yields the empty string. -/
def formatTextBlock (cfg : Config) (lines : List (List Span)) : String :=
  if !cfg.preserveFormatting then ""
  else
    joinWith "\n"
      (lines.foldl
        (fun acc ln =>
          let lt := formatLine ln
          if lt ≠ [] then acc ++ [joinWith " " lt] else acc)
        [])

/-- The inner loop of `_extract_text_with_table_placeholders` choosing the
best-overlapping table for a block: iterate `enumerate(table_positions)`,
and for each overlapping table update `(table_idx, overlap_ratio)` when
the ratio strictly improves.  Starts from `(-1, 0.0)`. -/
def bestTableAux (bbox : Rect) :
    List (Rect × ℕ) → ℕ → ℤ × ℚ → ℤ × ℚ
  | [], _, acc => acc
  | tp :: rest, i, acc =>
    let acc' :=
      if bboxOverlap bbox tp.1 then
        let currentRatio := overlapRatio bbox tp.1
        if currentRatio > acc.2 then ((i : ℤ), currentRatio) else acc
      else acc
    bestTableAux bbox rest (i + 1) acc'

def bestTable (tablePositions : List (Rect × ℕ)) (bbox : Rect) : ℤ × ℚ :=
  bestTableAux bbox tablePositions 0 (-1, 0)

/-- One string appended to `formatted_content`, tagged by its origin so
the development can speak about text elements and table placeholders
separately: `blank` is a literal `""`, `placeholder i` renders to
`<!-- TABLE_PLACEHOLDER_{i} -->`, `text s` is a formatted text block. -/
inductive Elem
  | blank
  | placeholder (i : ℤ)
  | text (s : String)
  deriving DecidableEq, Repr

def placeholderStr (i : ℤ) : String :=
  "<!-- TABLE_PLACEHOLDER_" ++ toString i ++ " -->"

def renderElem : Elem → String
  | Elem.blank => ""
  | Elem.placeholder i => placeholderStr i
  | Elem.text s => s

/-- Occurrences of an element in an emission list. -/
def countElem (e : Elem) : List Elem → ℕ
  | [] => 0
  | x :: xs => (if x = e then 1 else 0) + countElem e xs

/-- The body of the block loop of
`_extract_text_with_table_placeholders`: an image block (no `"lines"`) is
skipped; a text block is dropped (emitting a one-time placeholder) when
its best table overlap exceeds `0.7`, and formatted otherwise.  Returns
the strings appended for this block (as tagged `Elem`s) and the updated
`processed_table_indices`. -/
def processBlock (cfg : Config) (tablePositions : List (Rect × ℕ))
    (processed : List ℤ) : Block → List Elem × List ℤ
  | Block.image _ => ([], processed)
  | Block.text bbox lines =>
    let best := bestTable tablePositions bbox
    if best.1 ≥ 0 ∧ best.2 > (7 : ℚ) / 10 then
      if best.1 ∈ processed then ([], processed)
      else ([Elem.blank, Elem.placeholder best.1, Elem.blank],
            best.1 :: processed)
    else
      let s := formatTextBlock cfg lines
      if strTrim s ≠ "" then ([Elem.text s], processed) else ([], processed)

/-- The block loop: fold `processBlock` over the blocks, concatenating the
emitted strings. -/
def blocksGo (cfg : Config) (tablePositions : List (Rect × ℕ)) :
    List Block → List ℤ → List Elem × List ℤ
  | [], processed => ([], processed)
  | b :: bs, processed =>
    let step := processBlock cfg tablePositions processed b
    let rest := blocksGo cfg tablePositions bs step.2
    (step.1 ++ rest.1, rest.2)

/-- `sorted(text_blocks, key=lambda b: b["bbox"][1])`. -/
def sortBlocks (blocks : List Block) : List Block :=
  sortBy (fun a b => decide (a.bbox.y0 ≤ b.bbox.y0)) blocks

/-- The `formatted_content` of `_extract_text_with_table_placeholders`
for one page, as tagged elements. -/
def pageElems (cfg : Config) (page : Page) : List Elem :=
  (blocksGo cfg (detectTablePositions page) (sortBlocks page.blocks) []).1

/-- `_extract_text_with_table_placeholders`:
`"\n".join(formatted_content)`. -/
def extractTextWithTablePlaceholders (cfg : Config) (page : Page) :
    String :=
  joinWith "\n" ((pageElems cfg page).map renderElem)

/-! ## Placeholder substitution and single-page assembly -/

/-- `_replace_placeholders_with_tables`: unchanged when the text or the
table dict is empty; otherwise replace each present placeholder by its
table content, in ascending index order. -/
def replacePlaceholdersWithTables (text : String)
    (tablesDict : List (ℕ × String)) : String :=
  if text = "" ∨ tablesDict = [] then text
  else
    (sortBy (fun a b => decide (a.1 ≤ b.1)) tablesDict).foldl
      (fun res p =>
        let ph := placeholderStr (p.1 : ℤ)
        if strContains res ph then strReplace res ph p.2 else res)
      text

/-- `_process_single_page`: page heading, text with placeholders, table
extraction, substitution, joined by newlines. -/
def processSinglePage (cfg : Config) (page : Page) (pageIdx : ℕ) : String :=
  let heading := "\n## 第 " ++ toString (pageIdx + 1) ++ " 页\n"
  let textWithPlaceholders := extractTextWithTablePlaceholders cfg page
  let tablesDict := extractTablesWithPositions cfg page
  let finalContent :=
    replacePlaceholdersWithTables textWithPlaceholders tablesDict
  joinWith "\n" [heading, finalContent]

/-! ## Batched conversion (`_process_page_batch`,
`_process_pages_in_batches`, `convert_pdf`)

The mutable `processing_stats` dictionary is threaded explicitly.  The
wall-clock `start_time` / `end_time` entries and the log output are not
modelled.  A document is the outcome of `fitz.open`: either an exception
message or a list of pages, where each page access/processing outcome is
itself `Except`-valued (`Except.error` models a per-page exception raised
while processing that page). -/

/-- The counters of `processing_stats`. -/
structure Stats where
  totalPages : ℕ := 0
  processedPages : ℕ := 0
  tablesFound : ℕ := 0
  errors : List String := []
  deriving DecidableEq, Repr

/-- The fresh statistics of `PDFConverterV2.__init__` / `reset_stats`. -/
def initialStats : Stats := {}

/-- Default value used for an out-of-range page index; unreachable from
`convert_pdf`, whose range is clamped to the page count. -/
def pageIndexError : String := "page index out of range"

def pageErrMsg (pageNum : ℕ) (e : String) : String :=
  "处理第" ++ toString (pageNum + 1) ++ "页时发生错误: " ++ e

def pageErrComment (pageNum : ℕ) (e : String) : String :=
  "\n<!-- 第" ++ toString (pageNum + 1) ++ "页处理错误: " ++ e ++ " -->\n"

/-- The page loop of `_process_page_batch` over a list of 0-based page
numbers: a page that processes successfully contributes its Markdown and
increments `processed_pages`; a page that raises contributes an inline
HTML error comment and appends to `errors`, and the loop continues. -/
def batchGo (cfg : Config) (doc : List (Except String Page)) :
    List ℕ → Stats → List String × Stats
  | [], s => ([], s)
  | n :: ns, s =>
    match doc.getD n (Except.error pageIndexError) with
    | Except.ok page =>
      let content := processSinglePage cfg page n
      let rest := batchGo cfg doc ns
        { s with processedPages := s.processedPages + 1 }
      (content :: rest.1, rest.2)
    | Except.error e =>
      let rest := batchGo cfg doc ns
        { s with errors := s.errors ++ [pageErrMsg n e] }
      (pageErrComment n e :: rest.1, rest.2)

/-- `_process_page_batch(doc, start_idx, end_idx)`: iterate
`range(start_idx, end_idx)` and join with newlines. -/
def processPageBatch (cfg : Config) (doc : List (Except String Page))
    (startIdx endIdx : ℕ) (s : Stats) : String × Stats :=
  let r := batchGo cfg doc (List.range' startIdx (endIdx - startIdx)) s
  (joinWith "\n" r.1, r.2)

/-- Python `range(a, b, step)` for a positive step. -/
def pythonRange (a b step : ℕ) : List ℕ :=
  (List.range ((b - a + step - 1) / step)).map fun k => a + k * step

/-- The batch loop of `_process_pages_in_batches` over the batch start
indices. -/
def batchesGo (cfg : Config) (doc : List (Except String Page))
    (endPage : ℕ) : List ℕ → Stats → List String × Stats
  | [], s => ([], s)
  | bs :: rest, s =>
    let r := processPageBatch cfg doc bs (min (bs + cfg.chunkSize) endPage) s
    let rs := batchesGo cfg doc endPage rest r.2
    (r.1 :: rs.1, rs.2)

/-- `_process_pages_in_batches(doc, start_page, end_page)` (1-based
inclusive range): batches of `chunk_size` pages starting at
`start_page - 1`, joined with newlines. -/
def processPagesInBatches (cfg : Config) (doc : List (Except String Page))
    (startPage endPage : ℕ) (s : Stats) : String × Stats :=
  let r := batchesGo cfg doc endPage
    (pythonRange (startPage - 1) endPage cfg.chunkSize) s
  (joinWith "\n" r.1, r.2)

/-- `_validate_inputs`: raises when the path does not exist, is not a
`.pdf`, `start_page < 1`, or `end_page < start_page`.  Page numbers are
Python ints, hence `ℤ` here. -/
def validateInputs (pathExists : Bool) (isPdfPath : Bool) (startPage : ℤ)
    (endPage : Option ℤ) : Except String Unit :=
  if !pathExists then Except.error "PDF文件不存在"
  else if !isPdfPath then Except.error "输入文件必须是PDF格式"
  else if startPage < 1 then Except.error "起始页码必须大于等于1"
  else
    match endPage with
    | some e => if e < startPage then
        Except.error "结束页码必须大于等于起始页码"
      else Except.ok ()
    | none => Except.ok ()

/-- The result dictionary of `convert_pdf`: on success `output_path`
content (the artifact that `_save_output` writes), `pages_processed`,
`tables_found` and `errors`; on failure `error` and `errors`.
`processing_time` and the output path string are not modelled. -/
inductive ConvResult
  | success (artifact : String) (pagesProcessed tablesFound : ℕ)
      (errors : List String)
  | failure (error : String) (errors : List String)
  deriving DecidableEq, Repr

def ConvResult.successB : ConvResult → Bool
  | ConvResult.success _ _ _ _ => true
  | ConvResult.failure _ _ => false

def ConvResult.artifactD : ConvResult → String
  | ConvResult.success a _ _ _ => a
  | ConvResult.failure _ _ => ""

def ConvResult.pagesD : ConvResult → ℕ
  | ConvResult.success _ p _ _ => p
  | ConvResult.failure _ _ => 0

def ConvResult.tablesD : ConvResult → ℕ
  | ConvResult.success _ _ t _ => t
  | ConvResult.failure _ _ => 0

def ConvResult.errorsD : ConvResult → List String
  | ConvResult.success _ _ _ e => e
  | ConvResult.failure _ e => e

/-- The body of `convert_pdf` after validation and output-path generation
(the claims quantify over inputs for which validation passes; a validation
failure raises out of `convert_pdf` and is not part of its return value).
Note that nothing here resets `processed_pages`, `tables_found` or
`errors`, and nothing on this path increments `tables_found`. -/
def convertPdf (cfg : Config)
    (openResult : Except String (List (Except String Page)))
    (startPage : ℕ) (endPage : Option ℕ) (s : Stats) :
    ConvResult × Stats :=
  match openResult with
  | Except.error e =>
    let s' := { s with errors := s.errors ++ [e] }
    (ConvResult.failure e s'.errors, s')
  | Except.ok pages =>
    let total := pages.length
    let s1 := { s with totalPages := total }
    let endp := match endPage with
      | none => total
      | some ep => if ep > total then total else ep
    let actualStart := max 1 startPage
    let actualEnd := min total endp
    let r := processPagesInBatches cfg pages actualStart actualEnd s1
    (ConvResult.success r.1 r.2.processedPages r.2.tablesFound r.2.errors,
     r.2)

/-! ## Background worker (`ConvertService._run_convert_task`)

`ConvertService.__init__` constructs one `PDFConverterV2` with
`convertServiceConfig`, shared by every task.  The worker body runs in a
`try` whose `except` clause sets `status`, `error` and `end_time` — but
not `progress`.  The call
`self.pdf_converter.convert_pdf(file_path, progress_callback=progress_callback)`
passes a keyword argument that `PDFConverterV2.convert_pdf` does not
declare (its parameters are `pdf_path`, `output_path`, `start_page`,
`end_page`), so Python raises `TypeError` at the call site, inside the
`try`. -/

/-- The keyword-accepting parameters of `PDFConverterV2.convert_pdf`. -/
def convertPdfKeywordParams : List String :=
  ["output_path", "start_page", "end_page"]

def typeErrorMsg (kw : String) : String :=
  "TypeError: PDFConverterV2.convert_pdf() got an unexpected keyword argument " ++ kw

/-- A Python call to `convert_pdf` with the given keyword-argument names:
if every name is a declared parameter the call proceeds and returns the
conversion outcome, otherwise `TypeError` is raised before the function
body runs. -/
def callConvertPdf (kwargs : List String) (outcome : ConvResult) :
    Except String ConvResult :=
  match kwargs.find? (fun k => !(convertPdfKeywordParams.contains k)) with
  | some k => Except.error (typeErrorMsg k)
  | none => Except.ok outcome

/-- The progress callback defined inside `_run_convert_task`:
`job.progress = min(p, 99)`. -/
def progressCallback (p : ℕ) : ℕ := min p 99

/-- Task state (`self.tasks[task_id]`); `start_time` / `end_time` are
modelled as booleans recording whether the field was stamped. -/
structure TaskState where
  fileId : String
  status : String
  progress : ℕ
  result : Option (String × ℕ × ℕ)
  error : Option String
  startTimeSet : Bool
  endTimeSet : Bool
  deriving DecidableEq, Repr

/-- The task record created by `start_convert_task`. -/
def freshTask (fileId : String) : TaskState :=
  { fileId := fileId, status := "pending", progress := 0, result := none,
    error := none, startTimeSet := false, endTimeSet := false }

/-- `ConvertService._run_convert_task`.  `wouldConvert` is the outcome
`convert_pdf` would return if the call succeeded; on a successful result
the worker stores `(markdown_content, pages_processed, tables_found)` and
sets `progress = 100`, on a reported failure it stores the error and sets
`progress = 100`, and on an exception raised inside the `try` (here: the
`TypeError` from the extra `progress_callback` keyword) it stores the
error and stamps `end_time` without touching `progress`. -/
def runConvertTask (wouldConvert : ConvResult) (task : TaskState) :
    TaskState :=
  let task := { task with status := "processing", startTimeSet := true }
  match callConvertPdf ["progress_callback"] wouldConvert with
  | Except.error e =>
    { task with status := "failed", error := some e, endTimeSet := true }
  | Except.ok r =>
    match r with
    | ConvResult.success artifact pages tables _ =>
      { task with status := "completed", result := some (artifact, pages, tables), progress := 100, endTimeSet := true }
    | ConvResult.failure err _ =>
      { task with status := "failed", error := some err, progress := 100, endTimeSet := true }

/-! ## Concrete fixtures

Small concrete pages and documents used by counterexamples and witnesses. -/

/-- A page with one text block and one embedded image block. -/
def pageWithImage : Page :=
  { width := 100, height := 100,
    blocks := [Block.text ⟨10, 10, 40, 20⟩ [[⟨"hello", 10⟩]],
               Block.image ⟨10, 50, 30, 70⟩],
    tables := [] }

/-- `pageWithImage` with the image block removed. -/
def pageTextOnly : Page :=
  { width := 100, height := 100,
    blocks := [Block.text ⟨10, 10, 40, 20⟩ [[⟨"hello", 10⟩]]],
    tables := [] }

/-- A page with one valid detected table and no text blocks. -/
def tableOnlyPage : Page :=
  { width := 100, height := 100, blocks := [],
    tables := [(⟨10, 10, 60, 40⟩,
                [[some "A", some "B"], [some "C", some "D"]])] }

/-- A page with one valid detected table and one text block lying inside
the table region (overlap ratio 1). -/
def tableWithTextPage : Page :=
  { width := 100, height := 100,
    blocks := [Block.text ⟨12, 12, 20, 16⟩ [[⟨"A1", 10⟩]]],
    tables := [(⟨10, 10, 60, 40⟩,
                [[some "A", some "B"], [some "C", some "D"]])] }

/-- A two-page document whose first page raises during processing. -/
def docWithBadPage : List (Except String Page) :=
  [Except.error "boom", Except.ok pageTextOnly]

/-! ## Theorems -/

/-- Claim C9 (counterexample): the claim says the ×3 upscale is applied
exactly when `max(w, h) < 100`.  For an image of height 50 and width 150,
`max = 150 ≥ 100` (the claim then requires the ×2 upscale since
`max < 200`), yet `_preprocess_image` applies ×3 because its condition is
`height < 100 or width < 100`, i.e. a test on the smaller dimension. -/
theorem c9_upscale_counterexample :
    ScaleOp.up3 ∈ preprocessOps 50 150 ∧ ¬ (max 50 150 < 100) ∧
    ScaleOp.up2 ∉ preprocessOps 50 150 := by
  decide

/-- Claim C9 (amended): `_preprocess_image` downscales by
`1200 / max(h, w)` (first, when it happens) exactly when
`max(h, w) > 1200`; it upscales ×3 exactly when `min(h, w) < 100` — the
source condition `height < 100 or width < 100` — and ×2 exactly when
`100 ≤ min(h, w) < 200`; it never applies both upscales; all conditions
are evaluated on the original, pre-downscale dimensions. -/
theorem c9_preprocess_resize_characterization (h w : ℕ) :
    (ScaleOp.down (1200 / (max h w : ℚ)) ∈ preprocessOps h w ↔
      max h w > 1200) ∧
    (ScaleOp.up3 ∈ preprocessOps h w ↔ min h w < 100) ∧
    (ScaleOp.up2 ∈ preprocessOps h w ↔ 100 ≤ min h w ∧ min h w < 200) ∧
    ¬ (ScaleOp.up3 ∈ preprocessOps h w ∧ ScaleOp.up2 ∈ preprocessOps h w) ∧
    (max h w > 1200 →
      (preprocessOps h w).head? = some (ScaleOp.down (1200 / (max h w : ℚ)))) := by
  have hup3 : (h < 100 ∨ w < 100) ↔ min h w < 100 := by omega
  have hup2 : (h < 200 ∨ w < 200) ↔ min h w < 200 := by omega
  have hdown : (max h w > 1200) ↔ 1200 < max h w := Iff.rfl
  unfold preprocessOps
  split_ifs with h1 h2 h3 <;>
    simp_all <;> omega

theorem c9_witness :
    (preprocessOps 100 2000).head?
      = some (ScaleOp.down (1200 / (max 100 2000 : ℚ))) :=
  (c9_preprocess_resize_characterization 100 2000).2.2.2.2 (by decide)

/-- Claim C8 (counterexample): the claim says an engine-internal exception
during recognition is caught and yields the empty string.  In the source,
`perform_ocr` and `_local_ocr` contain no `try`, so an engine exception
(modelled by an `Except.error` predict outcome) propagates out of
`perform_ocr` instead of producing `""`. -/
theorem c8_engine_exception_propagates :
    performOcr "local" (Except.error "OCR engine crashed")
      = Except.error "OCR engine crashed" ∧
    (Except.error "OCR engine crashed" :
      Except String String) ≠ Except.ok "" := by
  decide

/-- Claim C8 (amended): an engine-internal exception propagates out of
`perform_ocr` unchanged (there is no exception handling in `OCRService`);
recognition that yields no usable lines returns the empty string. -/
theorem c8_ocr_propagation_and_empty (e : String)
    (r : List (Option (List String))) :
    performOcr "local" (Except.error e) = Except.error e ∧
    (ocrExtractTexts r = [] →
      performOcr "local" (Except.ok r) = Except.ok "") := by
  constructor
  · rfl
  · intro hr
    simp [performOcr, localOcr, hr]
    decide

theorem c8_witness :
    performOcr "local" (Except.error "boom") = Except.error "boom" ∧
    performOcr "local" (Except.ok []) = Except.ok "" :=
  ⟨(c8_ocr_propagation_and_empty "boom" []).1,
   (c8_ocr_propagation_and_empty "boom" []).2 (by decide)⟩

/-- Claim C1 (code bug): the worker passes `progress_callback=` to
`PDFConverterV2.convert_pdf`, which declares no such parameter, so the
call raises `TypeError` inside the `try` of the worker before the converter
body runs.  Hence for every job — in particular one whose file is a valid
convertible PDF, i.e. whose conversion outcome `wouldConvert` would be a
success — the worker ends in `failed` with no populated result, never in
`completed`. -/
theorem c1_worker_call_always_fails (wouldConvert : ConvResult)
    (task : TaskState) :
    callConvertPdf ["progress_callback"] wouldConvert
        = Except.error (typeErrorMsg "progress_callback") ∧
    (runConvertTask wouldConvert task).status = "failed" ∧
    (runConvertTask wouldConvert task).status ≠ "completed" ∧
    (runConvertTask wouldConvert task).result = task.result ∧
    (runConvertTask wouldConvert (freshTask task.fileId)).result = none := by
  refine ⟨rfl, ?_, ?_, ?_, ?_⟩ <;>
    simp [runConvertTask, callConvertPdf, convertPdfKeywordParams, freshTask]

/-- Claim C2 (code bug): a job reaching a terminal state through the
exception path of the worker — which every job currently does, via the
`TypeError` of C1 — ends with `status = "failed"` (terminal) and
`end_time` stamped, but with `progress` left at its prior value `0`,
not `100`: the `except` clause of `_run_convert_task` does not write
`progress`. -/
theorem c2_exception_path_progress_not_100 :
    (runConvertTask (ConvResult.success "md" 1 0 []) (freshTask "file-1")).status
        = "failed" ∧
    (runConvertTask (ConvResult.success "md" 1 0 []) (freshTask "file-1")).endTimeSet
        = true ∧
    (runConvertTask (ConvResult.success "md" 1 0 []) (freshTask "file-1")).progress
        = 0 := by
  decide

/-- Claim C3 (counterexample): the claim says each embedded image yields
an image element and OCR-derived Markdown.  On a concrete page with one
embedded image, `_process_single_page` produces exactly the same Markdown
as for the page without the image, containing no image placeholder and no
OCR content: `PDFConverterV2` never touches images. -/
theorem c3_image_page_markdown_unchanged :
    processSinglePage convertServiceConfig pageWithImage 1
        = processSinglePage convertServiceConfig pageTextOnly 1 ∧
    strContains (processSinglePage convertServiceConfig pageWithImage 1)
        "IMAGE" = false ∧
    strContains (processSinglePage convertServiceConfig pageWithImage 1)
        "OCR" = false := by
  decide

/-- Claim C3 (amended): the per-page conversion processes only text
blocks; blocks without text lines (embedded images) are skipped by the
block loop and contribute no elements, no placeholders and no OCR content
— filtering the image blocks out of the processing sequence changes
nothing. -/
theorem c3_image_blocks_contribute_nothing (cfg : Config)
    (tablePositions : List (Rect × ℕ)) (blocks : List Block)
    (processed : List ℤ) :
    blocksGo cfg tablePositions blocks processed
      = blocksGo cfg tablePositions (blocks.filter isTextBlock) processed := by
  induction blocks generalizing processed with
  | nil => rfl
  | cons b bs ih =>
    cases b with
    | text bbox lines =>
      simp only [blocksGo, List.filter, isTextBlock]
      rw [ih]
    | image bbox =>
      simp only [blocksGo, processBlock, List.filter, isTextBlock]
      simpa using ih processed

/-- Claim C5 (counterexample): on a concrete page containing exactly one
detected valid table (its rendering is non-empty) and no text blocks, the
page output contains no table placeholder and no rendered table — only
the page heading.  Placeholders are only ever emitted while visiting an
overlapping text block, and with no text blocks the table is lost. -/
theorem c5_table_only_page_loses_table :
    extractTablesWithPositions convertServiceConfig tableOnlyPage
        = [(0, "| A | B |\n| --- | --- |\n| C | D |")] ∧
    pageElems convertServiceConfig tableOnlyPage = [] ∧
    processSinglePage convertServiceConfig tableOnlyPage 0
        = "\n## 第 1 页\n\n" ∧
    strContains (processSinglePage convertServiceConfig tableOnlyPage 0)
        "| --- |" = false := by
  decide

/-- Claim C5 (amended): for every page with no blocks at all (hence no
text blocks), whatever tables are detected, the element list is empty and
the page output is exactly the page heading followed by a blank line; no
placeholder is emitted and no table is rendered into the output. -/
theorem c5_no_text_blocks_heading_only (cfg : Config) (w h : ℚ)
    (tables : List (Rect × List (List (Option String)))) (pageIdx : ℕ) :
    pageElems cfg ⟨w, h, [], tables⟩ = [] ∧
    processSinglePage cfg ⟨w, h, [], tables⟩ pageIdx
      = ("\n## 第 " ++ toString (pageIdx + 1) ++ " 页\n") ++ "\n" := by
  constructor
  · rfl
  · simp [processSinglePage, extractTextWithTablePlaceholders, pageElems,
      sortBlocks, sortBy, blocksGo, replacePlaceholdersWithTables, joinWith]

/-! ### Helper lemmas: counting and the block loop -/

theorem countElem_append (e : Elem) (l1 l2 : List Elem) :
    countElem e (l1 ++ l2) = countElem e l1 + countElem e l2 := by
  induction l1 with
  | nil => simp [countElem]
  | cons x xs ih => simp [countElem, ih, Nat.add_assoc]

theorem countElem_eq_zero (e : Elem) (l : List Elem) (h : e ∉ l) :
    countElem e l = 0 := by
  induction l with
  | nil => rfl
  | cons x xs ih =>
    simp only [List.mem_cons, not_or] at h
    rw [countElem, if_neg (fun hx => h.1 hx.symm), ih h.2]

theorem overlapRatio_pos_overlap (a b : Rect) (h : 0 < overlapRatio a b) :
    bboxOverlap a b = true := by
  simp only [overlapRatio] at h
  split_ifs at h with h1 h2
  · exact absurd h (lt_irrefl 0)
  · exact absurd h (lt_irrefl 0)
  · push_neg at h1
    obtain ⟨hx, hy⟩ := h1
    simp only [bboxOverlap, Bool.not_eq_true', Bool.or_eq_false_iff,
      decide_eq_false_iff_not, not_lt]
    refine ⟨⟨⟨?_, ?_⟩, ?_⟩, ?_⟩ <;>
      linarith [le_max_left a.x0 b.x0, le_max_right a.x0 b.x0,
        min_le_left a.x1 b.x1, min_le_right a.x1 b.x1,
        le_max_left a.y0 b.y0, le_max_right a.y0 b.y0,
        min_le_left a.y1 b.y1, min_le_right a.y1 b.y1]

theorem bestTableAux_ratio_mono (bbox : Rect) (l : List (Rect × ℕ)) :
    ∀ (i : ℕ) (acc : ℤ × ℚ), acc.2 ≤ (bestTableAux bbox l i acc).2 := by
  induction l with
  | nil => intro i acc; exact le_refl _
  | cons tp rest ih =>
    intro i acc
    simp only [bestTableAux]
    refine le_trans ?_ (ih (i + 1) _)
    split_ifs with h1 h2
    · exact le_of_lt h2
    · exact le_refl _
    · exact le_refl _

theorem bestTableAux_ge_of_mem (bbox : Rect) (l : List (Rect × ℕ)) :
    ∀ (i : ℕ) (acc : ℤ × ℚ) (tp : Rect × ℕ), tp ∈ l →
      bboxOverlap bbox tp.1 = true →
      overlapRatio bbox tp.1 ≤ (bestTableAux bbox l i acc).2 := by
  induction l with
  | nil => intro i acc tp h _; exact absurd h (List.not_mem_nil tp)
  | cons hd rest ih =>
    intro i acc tp hmem hov
    rcases List.mem_cons.mp hmem with heq | hmem2
    · subst heq
      simp only [bestTableAux]
      refine le_trans ?_ (bestTableAux_ratio_mono bbox rest (i + 1) _)
      rw [if_pos hov]
      split_ifs with h2
      · exact le_refl _
      · exact not_lt.mp h2
    · simp only [bestTableAux]
      exact ih (i + 1) _ tp hmem2 hov

theorem bestTableAux_idx_nonneg (bbox : Rect) (l : List (Rect × ℕ)) :
    ∀ (i : ℕ) (acc : ℤ × ℚ), (0 < acc.2 → 0 ≤ acc.1) →
      0 < (bestTableAux bbox l i acc).2 →
      0 ≤ (bestTableAux bbox l i acc).1 := by
  induction l with
  | nil => intro i acc hinv h; exact hinv h
  | cons hd rest ih =>
    intro i acc hinv
    simp only [bestTableAux]
    refine ih (i + 1) _ ?_
    split_ifs with h1 h2
    · intro _; exact Int.natCast_nonneg i
    · exact hinv
    · exact hinv

theorem bestTable_of_overlap (tps : List (Rect × ℕ)) (bbox : Rect)
    (h : ∃ tp ∈ tps, (7 : ℚ) / 10 < overlapRatio bbox tp.1) :
    0 ≤ (bestTable tps bbox).1 ∧ (7 : ℚ) / 10 < (bestTable tps bbox).2 := by
  obtain ⟨tp, hmem, hgt⟩ := h
  have hpos : 0 < overlapRatio bbox tp.1 := lt_trans (by norm_num) hgt
  have hov := overlapRatio_pos_overlap bbox tp.1 hpos
  have hge := bestTableAux_ge_of_mem bbox tps 0 (-1, 0) tp hmem hov
  have h2 : (7 : ℚ) / 10 < (bestTable tps bbox).2 := lt_of_lt_of_le hgt hge
  refine ⟨?_, h2⟩
  exact bestTableAux_idx_nonneg bbox tps 0 (-1, 0)
    (fun hc => absurd hc (lt_irrefl 0)) (lt_trans (by norm_num) h2)

theorem processBlock_cases (cfg : Config) (tps : List (Rect × ℕ))
    (processed : List ℤ) (b : Block) :
    processBlock cfg tps processed b = ([], processed) ∨
    (∃ s, processBlock cfg tps processed b = ([Elem.text s], processed)) ∨
    (∃ j, j ∉ processed ∧
      processBlock cfg tps processed b
        = ([Elem.blank, Elem.placeholder j, Elem.blank], j :: processed)) := by
  cases b with
  | image bbox => left; rfl
  | text bbox lines =>
    simp only [processBlock]
    split_ifs with h1 h2 h3
    · left; rfl
    · right; right; exact ⟨(bestTable tps bbox).1, h2, rfl⟩
    · right; left; exact ⟨formatTextBlock cfg lines, rfl⟩
    · left; rfl

theorem processBlock_suppressed (cfg : Config) (tps : List (Rect × ℕ))
    (processed : List ℤ) (bbox : Rect) (lines : List (List Span))
    (h : ∃ tp ∈ tps, (7 : ℚ) / 10 < overlapRatio bbox tp.1) (s : String) :
    Elem.text s ∉ (processBlock cfg tps processed (Block.text bbox lines)).1 := by
  obtain ⟨hidx, hgt⟩ := bestTable_of_overlap tps bbox h
  simp only [processBlock]
  rw [if_pos ⟨hidx, hgt⟩]
  split_ifs with h2 <;> simp

theorem blocksGo_no_new_placeholder (cfg : Config) (tps : List (Rect × ℕ))
    (blocks : List Block) :
    ∀ (processed : List ℤ) (i : ℤ), i ∈ processed →
      Elem.placeholder i ∉ (blocksGo cfg tps blocks processed).1 := by
  induction blocks with
  | nil => intro p i _; simp [blocksGo]
  | cons b bs ih =>
    intro p i h
    rcases processBlock_cases cfg tps p b with hc | ⟨s, hc⟩ | ⟨j, hj, hc⟩
    · simp only [blocksGo, hc, List.nil_append]
      exact ih p i h
    · simp only [blocksGo, hc]
      intro hmem
      rcases List.mem_append.mp hmem with h1 | h1
      · simp at h1
      · exact ih p i h h1
    · simp only [blocksGo, hc]
      intro hmem
      rcases List.mem_append.mp hmem with h1 | h1
      · have hij : i ≠ j := fun e => hj (e ▸ h)
        simp [hij] at h1
      · exact ih (j :: p) i (List.mem_cons_of_mem j h) h1

theorem blocksGo_count_le (cfg : Config) (tps : List (Rect × ℕ))
    (blocks : List Block) :
    ∀ (processed : List ℤ) (i : ℤ),
      countElem (Elem.placeholder i) (blocksGo cfg tps blocks processed).1
        ≤ if i ∈ processed then 0 else 1 := by
  induction blocks with
  | nil => intro p i; simp [blocksGo, countElem]
  | cons b bs ih =>
    intro p i
    rcases processBlock_cases cfg tps p b with hc | ⟨s, hc⟩ | ⟨j, hj, hc⟩
    · simp only [blocksGo, hc, List.nil_append]
      exact ih p i
    · simp only [blocksGo, hc, List.cons_append, List.nil_append]
      have h0 : countElem (Elem.placeholder i)
          (Elem.text s :: (blocksGo cfg tps bs p).1)
          = countElem (Elem.placeholder i) (blocksGo cfg tps bs p).1 := by
        rw [countElem, if_neg (by simp)]
        simp
      rw [h0]
      exact ih p i
    · simp only [blocksGo, hc]
      rw [countElem_append]
      by_cases hij : i = j
      · subst hij
        have h1 : countElem (Elem.placeholder i)
            [Elem.blank, Elem.placeholder i, Elem.blank] = 1 := by
          simp [countElem]
        have h2 : countElem (Elem.placeholder i)
            (blocksGo cfg tps bs (i :: p)).1 = 0 :=
          countElem_eq_zero _ _
            (blocksGo_no_new_placeholder cfg tps bs (i :: p) i
              (List.mem_cons_self i p))
        rw [h1, h2, if_neg hj]
      · have h1 : countElem (Elem.placeholder i)
            [Elem.blank, Elem.placeholder j, Elem.blank] = 0 := by
          simp [countElem]
          exact fun hh => hij hh.symm
        rw [h1, Nat.zero_add]
        have h3 := ih (j :: p) i
        have h4 : (i ∈ j :: p) ↔ (i ∈ p) := by
          simp [List.mem_cons, hij]
        simpa [h4] using h3

theorem blocksGo_all_text_suppressed (cfg : Config)
    (tps : List (Rect × ℕ)) (blocks : List Block) :
    (∀ bbox lines, Block.text bbox lines ∈ blocks →
      ∃ tp ∈ tps, (7 : ℚ) / 10 < overlapRatio bbox tp.1) →
    ∀ (processed : List ℤ) (s : String),
      Elem.text s ∉ (blocksGo cfg tps blocks processed).1 := by
  induction blocks with
  | nil => intro _ p s; simp [blocksGo]
  | cons b bs ih =>
    intro h p s hmem
    simp only [blocksGo, List.mem_append] at hmem
    rcases hmem with h1 | h2
    · cases b with
      | image bbox => simp [processBlock] at h1
      | text bbox lines =>
        exact processBlock_suppressed cfg tps p bbox lines
          (h bbox lines (List.mem_cons_self _ _)) s h1
    · exact ih (fun bb ll hm => h bb ll (List.mem_cons_of_mem b hm)) _ s h2

theorem mem_insertBy {α : Type} (le : α → α → Bool) (x a : α) (l : List α) :
    x ∈ insertBy le a l ↔ x = a ∨ x ∈ l := by
  induction l with
  | nil => simp [insertBy]
  | cons y ys ih =>
    simp only [insertBy]
    split_ifs with hy
    · simp only [List.mem_cons, ih]
      tauto
    · simp only [List.mem_cons]

theorem mem_sortBy_aux {α : Type} (le : α → α → Bool) (l : List α) :
    ∀ (acc : List α) (x : α),
      x ∈ l.foldl (fun acc b => insertBy le b acc) acc ↔
        x ∈ acc ∨ x ∈ l := by
  induction l with
  | nil => intro acc x; simp
  | cons b bs ih =>
    intro acc x
    simp only [List.foldl_cons]
    rw [ih, mem_insertBy]
    simp only [List.mem_cons]
    tauto

theorem mem_sortBlocks (b : Block) (blocks : List Block) :
    b ∈ sortBlocks blocks ↔ b ∈ blocks := by
  unfold sortBlocks sortBy
  rw [mem_sortBy_aux]
  simp

/-- Claim C4: on every page (1) each detected table contributes at most
one table placeholder element, however many text blocks overlap it —
`processed_table_indices` guards re-emission; (2) a text block whose
overlap ratio with some detected table bbox exceeds 0.7 (equivalently,
whose maximum such ratio exceeds 0.7) emits no text element, at any point
of the block loop; and (3) if every text block of the page overlaps some
table that strongly, the page emission contains no text element at all. -/
theorem c4_table_overlap_suppression (cfg : Config) (page : Page) :
    (∀ i : ℤ,
      countElem (Elem.placeholder i) (pageElems cfg page) ≤ 1) ∧
    (∀ (processed : List ℤ) (bbox : Rect) (lines : List (List Span)),
      (∃ tp ∈ detectTablePositions page,
        (7 : ℚ) / 10 < overlapRatio bbox tp.1) →
      ∀ s, Elem.text s ∉
        (processBlock cfg (detectTablePositions page) processed
          (Block.text bbox lines)).1) ∧
    ((∀ bbox lines, Block.text bbox lines ∈ page.blocks →
        ∃ tp ∈ detectTablePositions page,
          (7 : ℚ) / 10 < overlapRatio bbox tp.1) →
      ∀ s, Elem.text s ∉ pageElems cfg page) := by
  refine ⟨?_, ?_, ?_⟩
  · intro i
    have h := blocksGo_count_le cfg (detectTablePositions page)
      (sortBlocks page.blocks) [] i
    simpa [pageElems] using h
  · intro processed bbox lines h s
    exact processBlock_suppressed cfg (detectTablePositions page)
      processed bbox lines h s
  · intro h s
    exact blocksGo_all_text_suppressed cfg (detectTablePositions page)
      (sortBlocks page.blocks)
      (fun bb ll hm => h bb ll ((mem_sortBlocks _ _).mp hm)) [] s

theorem c4_witness :
    countElem (Elem.placeholder 0)
        (pageElems convertServiceConfig tableWithTextPage) ≤ 1 ∧
    (∀ s, Elem.text s ∉
      (processBlock convertServiceConfig
        (detectTablePositions tableWithTextPage) []
        (Block.text ⟨12, 12, 20, 16⟩ [[⟨"A1", 10⟩]])).1) :=
  ⟨(c4_table_overlap_suppression convertServiceConfig tableWithTextPage).1 0,
   (c4_table_overlap_suppression convertServiceConfig tableWithTextPage).2.1
     [] ⟨12, 12, 20, 16⟩ [[⟨"A1", 10⟩]]
     ⟨(⟨8, 8, 62, 42⟩, 0), by decide, by decide⟩⟩

/-! ### Helper lemmas: the page batch loop and the converter statistics -/

theorem batchGo_errors_mono (cfg : Config) (doc : List (Except String Page))
    (ns : List ℕ) :
    ∀ (s : Stats) (x : String), x ∈ s.errors →
      x ∈ (batchGo cfg doc ns s).2.errors := by
  induction ns with
  | nil => intro s x h; exact h
  | cons n ms ih =>
    intro s x h
    rcases hdoc : doc.getD n (Except.error pageIndexError) with e | page <;>
      simp only [batchGo, hdoc]
    · exact ih _ x (List.mem_append_left _ h)
    · exact ih _ x h

theorem batchGo_stats (cfg : Config) (doc : List (Except String Page))
    (ns : List ℕ) :
    ∀ s : Stats,
      s.processedPages ≤ (batchGo cfg doc ns s).2.processedPages ∧
      (batchGo cfg doc ns s).2.tablesFound = s.tablesFound ∧
      ∃ t, (batchGo cfg doc ns s).2.errors = s.errors ++ t := by
  induction ns with
  | nil => intro s; exact ⟨le_refl _, rfl, [], (List.append_nil _).symm⟩
  | cons n ms ih =>
    intro s
    rcases hdoc : doc.getD n (Except.error pageIndexError) with e | page <;>
      simp only [batchGo, hdoc]
    · obtain ⟨h1, h2, t, h3⟩ := ih { s with errors := s.errors ++ [pageErrMsg n e] }
      refine ⟨h1, h2, [pageErrMsg n e] ++ t, ?_⟩
      rw [h3, List.append_assoc]
    · obtain ⟨h1, h2, t, h3⟩ := ih { s with processedPages := s.processedPages + 1 }
      exact ⟨le_trans (Nat.le_succ _) h1, h2, t, h3⟩

theorem batchGo_comment_mem (cfg : Config) (doc : List (Except String Page))
    (ns : List ℕ) :
    ∀ (s : Stats) (n : ℕ) (e : String), n ∈ ns →
      doc.getD n (Except.error pageIndexError) = Except.error e →
      pageErrComment n e ∈ (batchGo cfg doc ns s).1 := by
  induction ns with
  | nil => intro s n e h _; exact absurd h (List.not_mem_nil n)
  | cons m ms ih =>
    intro s n e hmem hdoc
    rcases List.mem_cons.mp hmem with heq | hmem2
    · subst heq
      simp only [batchGo, hdoc]
      exact List.mem_cons_self _ _
    · rcases hdoc2 : doc.getD m (Except.error pageIndexError) with e2 | page <;>
        simp only [batchGo, hdoc2]
      · exact List.mem_cons_of_mem _ (ih _ n e hmem2 hdoc)
      · exact List.mem_cons_of_mem _ (ih _ n e hmem2 hdoc)

theorem batchGo_errmsg_mem (cfg : Config) (doc : List (Except String Page))
    (ns : List ℕ) :
    ∀ (s : Stats) (n : ℕ) (e : String), n ∈ ns →
      doc.getD n (Except.error pageIndexError) = Except.error e →
      pageErrMsg n e ∈ (batchGo cfg doc ns s).2.errors := by
  induction ns with
  | nil => intro s n e h _; exact absurd h (List.not_mem_nil n)
  | cons m ms ih =>
    intro s n e hmem hdoc
    rcases List.mem_cons.mp hmem with heq | hmem2
    · subst heq
      simp only [batchGo, hdoc]
      exact batchGo_errors_mono cfg doc ms _ _
        (List.mem_append_right _ (by simp))
    · rcases hdoc2 : doc.getD m (Except.error pageIndexError) with e2 | page <;>
        simp only [batchGo, hdoc2]
      · exact ih _ n e hmem2 hdoc
      · exact ih _ n e hmem2 hdoc

theorem batchGo_content_mem (cfg : Config) (doc : List (Except String Page))
    (ns : List ℕ) :
    ∀ (s : Stats) (m : ℕ) (pg : Page), m ∈ ns →
      doc.getD m (Except.error pageIndexError) = Except.ok pg →
      processSinglePage cfg pg m ∈ (batchGo cfg doc ns s).1 := by
  induction ns with
  | nil => intro s m pg h _; exact absurd h (List.not_mem_nil m)
  | cons m2 ms ih =>
    intro s m pg hmem hdoc
    rcases List.mem_cons.mp hmem with heq | hmem2
    · subst heq
      simp only [batchGo, hdoc]
      exact List.mem_cons_self _ _
    · rcases hdoc2 : doc.getD m2 (Except.error pageIndexError) with e2 | page <;>
        simp only [batchGo, hdoc2]
      · exact List.mem_cons_of_mem _ (ih _ m pg hmem2 hdoc)
      · exact List.mem_cons_of_mem _ (ih _ m pg hmem2 hdoc)

theorem batchesGo_stats (cfg : Config) (doc : List (Except String Page))
    (endPage : ℕ) (bss : List ℕ) :
    ∀ s : Stats,
      s.processedPages ≤ (batchesGo cfg doc endPage bss s).2.processedPages ∧
      (batchesGo cfg doc endPage bss s).2.tablesFound = s.tablesFound ∧
      ∃ t, (batchesGo cfg doc endPage bss s).2.errors = s.errors ++ t := by
  induction bss with
  | nil => intro s; exact ⟨le_refl _, rfl, [], (List.append_nil _).symm⟩
  | cons bstart rest ih =>
    intro s
    simp only [batchesGo, processPageBatch]
    obtain ⟨h1, h2, t1, h3⟩ := batchGo_stats cfg doc
      (List.range' bstart (min (bstart + cfg.chunkSize) endPage - bstart)) s
    obtain ⟨g1, g2, t2, g3⟩ := ih
      (batchGo cfg doc
        (List.range' bstart (min (bstart + cfg.chunkSize) endPage - bstart)) s).2
    refine ⟨le_trans h1 g1, by rw [g2, h2], t1 ++ t2, ?_⟩
    rw [g3, h3, List.append_assoc]

theorem convertPdf_stats (cfg : Config)
    (o : Except String (List (Except String Page)))
    (sp : ℕ) (ep : Option ℕ) (s : Stats) :
    s.processedPages ≤ (convertPdf cfg o sp ep s).2.processedPages ∧
    (convertPdf cfg o sp ep s).2.tablesFound = s.tablesFound ∧
    ∃ t, (convertPdf cfg o sp ep s).2.errors = s.errors ++ t := by
  cases o with
  | error e =>
    exact ⟨le_refl _, rfl, [e], rfl⟩
  | ok pages =>
    simp only [convertPdf, processPagesInBatches]
    exact batchesGo_stats cfg pages _ _ { s with totalPages := pages.length }

theorem convertPdf_ok_success (cfg : Config)
    (pages : List (Except String Page)) (sp : ℕ) (ep : Option ℕ)
    (s : Stats) :
    ((convertPdf cfg (Except.ok pages) sp ep s).1).successB = true := rfl

theorem convertPdf_success_reports (cfg : Config)
    (o : Except String (List (Except String Page)))
    (sp : ℕ) (ep : Option ℕ) (s : Stats) (a : String) (p t : ℕ)
    (e : List String)
    (h : (convertPdf cfg o sp ep s).1 = ConvResult.success a p t e) :
    p = (convertPdf cfg o sp ep s).2.processedPages ∧
    t = (convertPdf cfg o sp ep s).2.tablesFound ∧
    e = (convertPdf cfg o sp ep s).2.errors := by
  cases o with
  | error err => simp [convertPdf] at h
  | ok pages =>
    simp only [convertPdf] at h ⊢
    rw [ConvResult.success.injEq] at h
    exact ⟨h.2.1.symm, h.2.2.1.symm, h.2.2.2.symm⟩

/-- Claim C6: a page that raises during processing contributes an inline
HTML error comment to the batch output and its message to the `errors`
list; all other pages of the range are still processed and their content
appears in the output; and `convert_pdf` on an opened document always
reports `success` — per-page errors never flip it. -/
theorem c6_per_page_errors_absorbed (cfg : Config)
    (doc : List (Except String Page)) (nums : List ℕ) (s : Stats)
    (n : ℕ) (e : String)
    (hmem : n ∈ nums)
    (hdoc : doc.getD n (Except.error pageIndexError) = Except.error e) :
    pageErrComment n e ∈ (batchGo cfg doc nums s).1 ∧
    pageErrMsg n e ∈ (batchGo cfg doc nums s).2.errors ∧
    (∀ (m : ℕ) (pg : Page), m ∈ nums →
      doc.getD m (Except.error pageIndexError) = Except.ok pg →
      processSinglePage cfg pg m ∈ (batchGo cfg doc nums s).1) ∧
    (∀ (pages : List (Except String Page)) (sp : ℕ) (ep : Option ℕ)
      (s2 : Stats),
      ((convertPdf cfg (Except.ok pages) sp ep s2).1).successB = true) :=
  ⟨batchGo_comment_mem cfg doc nums s n e hmem hdoc,
   batchGo_errmsg_mem cfg doc nums s n e hmem hdoc,
   fun m pg hm hd => batchGo_content_mem cfg doc nums s m pg hm hd,
   fun pages sp ep s2 => convertPdf_ok_success cfg pages sp ep s2⟩

theorem c6_witness :
    pageErrComment 0 "boom"
        ∈ (batchGo convertServiceConfig docWithBadPage [0, 1] initialStats).1 ∧
    pageErrMsg 0 "boom"
        ∈ (batchGo convertServiceConfig docWithBadPage [0, 1] initialStats).2.errors ∧
    processSinglePage convertServiceConfig pageTextOnly 1
        ∈ (batchGo convertServiceConfig docWithBadPage [0, 1] initialStats).1 :=
  have h := c6_per_page_errors_absorbed convertServiceConfig docWithBadPage
    [0, 1] initialStats 0 "boom" (by decide) (by decide)
  ⟨h.1, h.2.1, h.2.2.1 1 pageTextOnly (by decide) (by decide)⟩

/-- Claim C7 (code bug): a successful conversion of a one-page document
containing one valid table that is detected, rendered and substituted
into the output (the artifact contains the rendered Markdown table)
reports `tables_found = 0`: the only increment of
`processing_stats["tables_found"]` lives in
`_extract_tables_with_pdfplumber`, which the conversion path never calls
(`_process_single_page` uses `_extract_tables_with_positions` →
`_extract_single_table`, which do not count). -/
theorem c7_tables_found_stays_zero :
    (convertPdf convertServiceConfig
        (Except.ok [Except.ok tableWithTextPage]) 1 none initialStats).1
      = ConvResult.success
          "\n## 第 1 页\n\n\n| A | B |\n| --- | --- |\n| C | D |\n" 1 0 [] ∧
    strContains
        ((convertPdf convertServiceConfig
          (Except.ok [Except.ok tableWithTextPage]) 1 none initialStats).1.artifactD)
        "| --- |" = true ∧
    ((convertPdf convertServiceConfig
        (Except.ok [Except.ok tableWithTextPage]) 1 none initialStats).1).tablesD
      = 0 := by
  decide

/-- Claim C10: `convert_pdf` never resets `processed_pages`,
`tables_found` or `errors`, and `ConvertService` shares one
`PDFConverterV2` instance across tasks, so two successive conversions
with the threaded statistics accumulate: the second success reports at
least the `pages_processed` reported by the first, its `errors` list
extends the first list, and `tables_found` carries over unchanged. -/
theorem c10_stats_accumulate (cfg : Config)
    (o1 o2 : Except String (List (Except String Page)))
    (sp1 sp2 : ℕ) (ep1 ep2 : Option ℕ) (s0 : Stats)
    (a1 a2 : String) (p1 p2 t1 t2 : ℕ) (e1 e2 : List String)
    (h1 : (convertPdf cfg o1 sp1 ep1 s0).1 = ConvResult.success a1 p1 t1 e1)
    (h2 : (convertPdf cfg o2 sp2 ep2 (convertPdf cfg o1 sp1 ep1 s0).2).1
        = ConvResult.success a2 p2 t2 e2) :
    p1 ≤ p2 ∧ (∃ tail, e2 = e1 ++ tail) ∧ t2 = t1 := by
  obtain ⟨r1p, r1t, r1e⟩ := convertPdf_success_reports cfg o1 sp1 ep1 s0
    a1 p1 t1 e1 h1
  obtain ⟨r2p, r2t, r2e⟩ := convertPdf_success_reports cfg o2 sp2 ep2
    (convertPdf cfg o1 sp1 ep1 s0).2 a2 p2 t2 e2 h2
  obtain ⟨m1, m2, tail, m3⟩ := convertPdf_stats cfg o2 sp2 ep2
    (convertPdf cfg o1 sp1 ep1 s0).2
  refine ⟨?_, ⟨tail, ?_⟩, ?_⟩
  · rw [r1p, r2p]; exact m1
  · rw [r2e, m3, r1e]
  · rw [r2t, m2, r1t]

theorem c10_witness :
    (convertPdf convertServiceConfig
        (Except.ok ([] : List (Except String Page))) 1 none initialStats).1
      = ConvResult.success "" 0 0 [] ∧
    (0 ≤ 0 ∧ (∃ tail, ([] : List String) = [] ++ tail) ∧ 0 = 0) :=
  ⟨by decide,
   c10_stats_accumulate convertServiceConfig
     (Except.ok []) (Except.ok []) 1 1 none none initialStats
     "" "" 0 0 0 0 [] [] (by decide) (by decide)⟩

end PDF2md
